import Mathlib

set_option maxRecDepth 1000000

/- Verification of the resolution-and-merge engine of k8s-ingress-hosts
   (src/glasses.go), shallowly embedded over Lean lists and strings.
   File contents are lists of characters; the Kubernetes API boundary is an
   explicit parameter (`Fetch`); dynamic (untyped) objects are `JVal` trees. -/

/- ### File merger: tryWriteToHostFile, src/glasses.go:34-37 and 74-95 -/

def sectionStart : String := "# generated using k8s-ingress-hosts start #"

def sectionEnd : String := "# generated using k8s-ingress-hosts end #\n"

def S : List Char := sectionStart.data

def E : List Char := sectionEnd.data

/-- The block built by tryWriteToHostFile:
    fmt.Sprintf("%s\n%s\n%s", sectionStart, hostEntries, sectionEnd). -/
def mergeBlock (hostEntries : List Char) : List Char :=
  S ++ '\n' :: (hostEntries ++ '\n' :: E)

/-- Position of the leftmost occurrence of p in c (as a contiguous run). -/
def findFirst (p : List Char) : List Char → Option Nat
  | [] => if p.isPrefixOf ([] : List Char) then some 0 else none
  | a :: l => if p.isPrefixOf (a :: l) then some 0 else (findFirst p l).map (· + 1)

/-- Position of the rightmost occurrence of p in c. -/
def findLast (p : List Char) : List Char → Option Nat
  | [] => if p.isPrefixOf ([] : List Char) then some 0 else none
  | a :: l =>
    match findLast p l with
    | some j => some (j + 1)
    | none => if p.isPrefixOf (a :: l) then some 0 else none

/-- The span matched by the Go regexp `(?ms)sectionStart(.*)sectionEnd`
    (src/glasses.go:82).  The match is leftmost-first and `(.*)` is greedy with
    dot matching newlines, so the unique match runs from the first occurrence of
    sectionStart through the end of the last occurrence of sectionEnd situated
    after it.  `some (i, j)` holds the position of the matched start marker and
    the position of the matched end marker. -/
def matchSpan (c : List Char) : Option (Nat × Nat) :=
  match findFirst S c, findLast E c with
  | some i, some j => if i + S.length ≤ j then some (i, j) else none
  | _, _ => none

/-- The pure content transformation of tryWriteToHostFile (src/glasses.go:82-87):
    when the regexp matches, ReplaceAll substitutes the freshly built block for
    the unique match; otherwise the block is appended to the file content.
    ReplaceAll's dollar-sign template expansion in the replacement is not
    modelled: rendered host entries contain no dollar sign. -/
def merge (hostEntries c : List Char) : List Char :=
  match matchSpan c with
  | some (i, j) => c.take i ++ mergeBlock hostEntries ++ c.drop (j + E.length)
  | none => c ++ mergeBlock hostEntries

/-- An operating-system file operation attempted by tryWriteToHostFile. -/
inductive FileOp where
  | readOp : FileOp
  | writeOp : List Char → FileOp
deriving DecidableEq

def isWriteOp : FileOp → Bool
  | FileOp.readOp => false
  | FileOp.writeOp _ => true

/-- tryWriteToHostFile (src/glasses.go:74-95) with the OS boundary explicit:
    `readResult` is what os.ReadFile produces (none = error) and `writeFails`
    says whether os.WriteFile errors.  The result records whether the call
    returns without error, together with the OS operations attempted in order. -/
def tryWriteToHostFile (hostEntries : List Char) (readResult : Option (List Char))
    (writeFails : Bool) : Bool × List FileOp :=
  match readResult with
  | none => (false, [FileOp.readOp])
  | some fileContent =>
    (!writeFails, [FileOp.readOp, FileOp.writeOp (merge hostEntries fileContent)])

/- ### Address resolver for ingress status, src/glasses.go:162-171 -/

structure LoadBalancerIngress where
  ip : String
  hostname : String
deriving DecidableEq

/-- The loop `for _, lb := range elem.Status.LoadBalancer.Ingress { ... }`
    (src/glasses.go:164-171), started from the fallback address. -/
def resolve : List LoadBalancerIngress → String → String
  | [], address => address
  | lb :: rest, address =>
    resolve rest (if lb.ip ≠ "" then lb.ip else if lb.hostname ≠ "" then lb.hostname else address)

/- ### Sorter: HostsList, src/glasses.go:47-63 and 256 -/

structure Rule where
  Domain : String
  Address : String
  Service : String
deriving DecidableEq

/-- Models strings.ToLower as used on hostnames (ASCII case mapping). -/
def toLowerStr (s : String) : String := String.mk (s.data.map Char.toLower)

/-- HostsList.Less (src/glasses.go:61-63):
    strings.ToLower(h[i].Domain) < strings.ToLower(h[j].Domain). -/
def hostsLess (a b : Rule) : Prop := toLowerStr a.Domain < toLowerStr b.Domain

instance : DecidableRel hostsLess := fun a b => by unfold hostsLess; infer_instance

/-- The non-strict order induced by HostsList.Less; sort.Sort produces a
    permutation ordered so that no later element is Less than an earlier one. -/
def hostsLe (a b : Rule) : Prop := ¬ hostsLess b a

instance : DecidableRel hostsLe := fun _ _ => instDecidableNot

instance : IsTotal Rule hostsLe := ⟨fun a b => by
  unfold hostsLe hostsLess
  by_cases h : toLowerStr b.Domain < toLowerStr a.Domain
  · right; exact fun h2 => absurd h (lt_asymm h2)
  · left; exact h⟩

instance : IsTrans Rule hostsLe := ⟨fun a b c hab hbc => by
  unfold hostsLe hostsLess at *
  rw [not_lt] at *
  exact le_trans hab hbc⟩

/-- Models sort.Sort(HostsList(entries)) (src/glasses.go:256): sort.Sort is an
    unstable comparison sort whose contract is a permutation of the input in
    which no later element is Less than an earlier one; insertionSort over
    `hostsLe` realises exactly that contract. -/
def sortHosts (l : List Rule) : List Rule := List.insertionSort hostsLe l

/- ### Dynamic (unstructured) objects and gatewayAddress, src/glasses.go:98-131 -/

/-- A decoded `interface\x7b\x7d` value: strings, lists, string-keyed maps, and
    `other` for every value of any type on which the program's type assertions
    fail (numbers, booleans, nil, ...). -/
inductive JVal where
  | str : String → JVal
  | arr : List JVal → JVal
  | obj : List (String × JVal) → JVal
  | other : JVal

/-- Go type assertion x.(map[string]interface\x7b\x7d). -/
def asObj : JVal → Option (List (String × JVal))
  | JVal.obj fields => some fields
  | _ => none

/-- Go type assertion x.([]interface\x7b\x7d). -/
def asArr : JVal → Option (List JVal)
  | JVal.arr elems => some elems
  | _ => none

/-- Go type assertion x.(string). -/
def asStr : JVal → Option String
  | JVal.str s => some s
  | _ => none

/-- Go map indexing m[k]; a missing key yields nil, on which every typed
    assertion fails, so it is identified with none. -/
def jLookup (k : String) (m : List (String × JVal)) : Option JVal := List.lookup k m

/-- The dynamic-client Get of a Gateway resource: namespace and name to the
    fetched object's top-level map, or none when the call errors. -/
def Fetch : Type := String → String → Option (List (String × JVal))

/-- The loop over status.addresses (src/glasses.go:120-128): the first element
    that is a map carrying a string under "value". -/
def firstAddrValue : List JVal → Option String
  | [] => none
  | addr :: rest =>
    match asObj addr with
    | none => firstAddrValue rest
    | some addrMap =>
      match (jLookup "value" addrMap).bind asStr with
      | some value => some value
      | none => firstAddrValue rest

/-- gatewayAddress (src/glasses.go:98-131). -/
def gatewayAddress (fetch : Fetch) (gwNamespace gwName : String) : String :=
  match fetch gwNamespace gwName with
  | none => ""
  | some gw =>
    match (jLookup "status" gw).bind asObj with
    | none => ""
    | some status =>
      match (jLookup "addresses" status).bind asArr with
      | none => ""
      | some addresses =>
        match firstAddrValue addresses with
        | some value => value
        | none => ""

/-- The well-formedness chain of gatewayAddress: the fetched resource's
    status.addresses list, when every shape check passes. -/
def statusAddrs (fetch : Fetch) (gwNamespace gwName : String) : Option (List JVal) :=
  (fetch gwNamespace gwName).bind fun gw =>
    ((jLookup "status" gw).bind asObj).bind fun status =>
      (jLookup "addresses" status).bind asArr

/- ### Entry aggregator, src/glasses.go:154-254 -/

/-- One Ingress item: its name, load-balancer status entries, and the Host of
    each of its Spec.Rules. -/
structure IngressItem where
  name : String
  lbIngress : List LoadBalancerIngress
  ruleHosts : List String

/-- The Ingress collection loop (src/glasses.go:162-180). -/
def ingressEntries (k8sHostname : String) (items : List IngressItem) : List Rule :=
  items.flatMap fun elem =>
    elem.ruleHosts.map fun host =>
      { Domain := host, Address := resolve elem.lbIngress k8sHostname, Service := elem.name }

/-- One HTTPRoute item: GetName(), GetNamespace(), and its untyped object map. -/
structure RouteObj where
  name : String
  ns : String
  obj : List (String × JVal)

/-- gwName of a parent ref (src/glasses.go:222): refMap["name"].(string), with
    the failed assertion defaulting to the empty string. -/
def refName (refMap : List (String × JVal)) : String :=
  ((jLookup "name" refMap).bind asStr).getD ""

/-- gwNamespace of a parent ref (src/glasses.go:223-226): refMap["namespace"]
    defaulted to the route's namespace when empty. -/
def refNamespace (routeNamespace : String) (refMap : List (String × JVal)) : String :=
  if ((jLookup "namespace" refMap).bind asStr).getD "" = "" then routeNamespace
  else ((jLookup "namespace" refMap).bind asStr).getD ""

/-- cacheKey of a parent ref (src/glasses.go:228). -/
def refKey (routeNamespace : String) (refMap : List (String × JVal)) : String :=
  refNamespace routeNamespace refMap ++ "/" ++ refName refMap

/-- One iteration of the parentRefs loop (src/glasses.go:217-240), acting on
    the gateway-address cache, the log of performed gatewayAddress lookups
    (recorded by cache key), and the running address. -/
def processRef (fetch : Fetch) (routeNamespace : String)
    (cache : List (String × String)) (calls : List String) (address : String)
    (ref : JVal) : List (String × String) × List String × String :=
  match asObj ref with
  | none => (cache, calls, address)
  | some refMap =>
    match cache.lookup (refKey routeNamespace refMap) with
    | some cached => (cache, calls, if cached ≠ "" then cached else address)
    | none =>
      ((refKey routeNamespace refMap,
          gatewayAddress fetch (refNamespace routeNamespace refMap) (refName refMap)) :: cache,
        refKey routeNamespace refMap :: calls,
        if gatewayAddress fetch (refNamespace routeNamespace refMap) (refName refMap) ≠ ""
        then gatewayAddress fetch (refNamespace routeNamespace refMap) (refName refMap)
        else address)

/-- The parentRefs loop (src/glasses.go:217-240). -/
def processRefs (fetch : Fetch) (routeNamespace : String) :
    List JVal → List (String × String) → List String → String →
    List (String × String) × List String × String
  | [], cache, calls, address => (cache, calls, address)
  | ref :: rest, cache, calls, address =>
    match processRef fetch routeNamespace cache calls address ref with
    | (c, l, a) => processRefs fetch routeNamespace rest c l a

/-- The hostnames loop (src/glasses.go:242-252): one Rule per element that is a
    string, all sharing the route's resolved address and service label. -/
def routeRules (hostnames : List JVal) (address service : String) : List Rule :=
  hostnames.filterMap fun h =>
    (asStr h).map fun hostname => { Domain := hostname, Address := address, Service := service }

/-- One iteration of the HTTPRoute loop (src/glasses.go:202-253). -/
def processRoute (fetch : Fetch) (k8sHostname : String)
    (cache : List (String × String)) (calls : List String) (route : RouteObj) :
    List (String × String) × List String × List Rule :=
  match (jLookup "spec" route.obj).bind asObj with
  | none => (cache, calls, [])
  | some spec =>
    let hostnames := ((jLookup "hostnames" spec).bind asArr).getD []
    let parentRefs := ((jLookup "parentRefs" spec).bind asArr).getD []
    match processRefs fetch route.ns parentRefs cache calls k8sHostname with
    | (c, l, address) => (c, l, routeRules hostnames address (route.ns ++ "/" ++ route.name))

/-- The HTTPRoute collection loop (src/glasses.go:202-253), threading the
    gateway-address cache and collecting the emitted Rules in order. -/
def processRoutes (fetch : Fetch) (k8sHostname : String) :
    List RouteObj → List (String × String) → List String →
    List (String × String) × List String × List Rule
  | [], cache, calls => (cache, calls, [])
  | route :: rest, cache, calls =>
    match processRoute fetch k8sHostname cache calls route with
    | (c, l, rs) =>
      match processRoutes fetch k8sHostname rest c l with
      | (c2, l2, rs2) => (c2, l2, rs ++ rs2)

/- ### Helper lemmas about occurrences of marker strings -/

lemma pref_of_bool {p q : List Char} (h : p.isPrefixOf q = true) : p <+: q := by
  have := @List.isPrefixOf_iff_prefix Char _ _ p q
  exact this.mp h

lemma bool_of_pref {p q : List Char} (h : p <+: q) : p.isPrefixOf q = true := by
  have := @List.isPrefixOf_iff_prefix Char _ _ p q
  exact this.mpr h

lemma pref_nil_eq {p : List Char} (h : p <+: []) : p = [] := by
  obtain ⟨t, ht⟩ := h
  exact (List.append_eq_nil.mp ht).1

lemma pref_iff_take {p l : List Char} : p <+: l ↔ l.take p.length = p := by
  constructor
  · rintro ⟨t, rfl⟩; simp
  · intro h
    exact ⟨l.drop p.length, by conv_rhs => rw [← List.take_append_drop p.length l]; rw [h]⟩

lemma pref_append_of {p x : List Char} (y : List Char) (h : p <+: x) : p <+: x ++ y := by
  obtain ⟨t, rfl⟩ := h
  exact ⟨t ++ y, by simp⟩

lemma pref_append_left {p x y : List Char} (hlen : p.length ≤ x.length) :
    p <+: x ++ y ↔ p <+: x := by
  constructor
  · intro h
    rw [pref_iff_take] at h ⊢
    rw [List.take_append_eq_append_take, Nat.sub_eq_zero_of_le hlen] at h
    simpa using h
  · exact pref_append_of y

lemma pref_append_split {p u v : List Char} (hlen : u.length < p.length) (h : p <+: u ++ v) :
    u = p.take u.length ∧ p.drop u.length <+: v := by
  obtain ⟨t, ht⟩ := h
  constructor
  · have := congrArg (List.take u.length) ht
    rw [List.take_append_eq_append_take, List.take_append_eq_append_take,
      Nat.sub_eq_zero_of_le (Nat.le_of_lt hlen), Nat.sub_self] at this
    simpa using this.symm
  · refine ⟨t, ?_⟩
    have := congrArg (List.drop u.length) ht
    rw [List.drop_append_eq_append_drop, List.drop_append_eq_append_drop,
      Nat.sub_eq_zero_of_le (Nat.le_of_lt hlen), Nat.sub_self] at this
    simpa using this

lemma pref_sandwich {p u v w : List Char} (h : p <+: u ++ (p ++ v)) : p <+: u ++ (p ++ w) := by
  rw [← List.append_assoc] at h ⊢
  rw [pref_append_left (by simp)] at h ⊢
  exact h

lemma findFirst_mem {p c : List Char} {i : Nat} (h : findFirst p c = some i) : p <+: c.drop i := by
  induction c generalizing i with
  | nil =>
    unfold findFirst at h
    by_cases hc : p.isPrefixOf ([] : List Char)
    · rw [if_pos hc] at h
      cases h
      rw [List.drop_nil]
      exact pref_of_bool hc
    · rw [if_neg hc] at h
      cases h
  | cons a l ih =>
    unfold findFirst at h
    by_cases hc : p.isPrefixOf (a :: l)
    · rw [if_pos hc] at h
      cases h
      rw [List.drop_zero]
      exact pref_of_bool hc
    · rw [if_neg hc, Option.map_eq_some'] at h
      obtain ⟨i0, hi, hval⟩ := h
      subst hval
      exact ih hi

lemma findFirst_min {p c : List Char} {i : Nat} (h : findFirst p c = some i) :
    ∀ i', i' < i → ¬ p <+: c.drop i' := by
  induction c generalizing i with
  | nil =>
    unfold findFirst at h
    by_cases hc : p.isPrefixOf ([] : List Char)
    · rw [if_pos hc] at h; cases h; omega
    · rw [if_neg hc] at h; cases h
  | cons a l ih =>
    unfold findFirst at h
    by_cases hc : p.isPrefixOf (a :: l)
    · rw [if_pos hc] at h; cases h; omega
    · rw [if_neg hc, Option.map_eq_some'] at h
      obtain ⟨i0, hi, hval⟩ := h
      subst hval
      intro i' hi' hpref
      cases i' with
      | zero =>
        rw [List.drop_zero] at hpref
        exact hc (bool_of_pref hpref)
      | succ i'' =>
        exact ih hi i'' (by omega) hpref

lemma findFirst_none {p c : List Char} (h : findFirst p c = none) : ∀ i, ¬ p <+: c.drop i := by
  induction c with
  | nil =>
    unfold findFirst at h
    by_cases hc : p.isPrefixOf ([] : List Char)
    · rw [if_pos hc] at h; cases h
    · intro i hpref
      rw [List.drop_nil] at hpref
      exact hc (bool_of_pref hpref)
  | cons a l ih =>
    unfold findFirst at h
    by_cases hc : p.isPrefixOf (a :: l)
    · rw [if_pos hc] at h; cases h
    · rw [if_neg hc] at h
      intro i hpref
      cases i with
      | zero =>
        rw [List.drop_zero] at hpref
        exact hc (bool_of_pref hpref)
      | succ i'' =>
        cases hi : findFirst p l with
        | none => exact ih hi i'' hpref
        | some i0 => rw [hi] at h; cases h

lemma findFirst_intro {p c : List Char} {i : Nat} (hocc : p <+: c.drop i)
    (hmin : ∀ i', i' < i → ¬ p <+: c.drop i') : findFirst p c = some i := by
  induction c generalizing i with
  | nil =>
    rw [List.drop_nil] at hocc
    cases i with
    | zero =>
      unfold findFirst
      rw [if_pos (bool_of_pref hocc)]
    | succ i'' =>
      exact absurd (by rw [List.drop_nil]; exact hocc) (hmin 0 (by omega))
  | cons a l ih =>
    cases i with
    | zero =>
      rw [List.drop_zero] at hocc
      unfold findFirst
      rw [if_pos (bool_of_pref hocc)]
    | succ i'' =>
      unfold findFirst
      rw [if_neg (fun hp => hmin 0 (by omega) (by rw [List.drop_zero]; exact pref_of_bool hp))]
      rw [ih hocc (fun i' hi' hp => hmin (i' + 1) (by omega) hp)]
      rfl

lemma findLast_mem {p c : List Char} {i : Nat} (h : findLast p c = some i) : p <+: c.drop i := by
  induction c generalizing i with
  | nil =>
    unfold findLast at h
    by_cases hc : p.isPrefixOf ([] : List Char)
    · rw [if_pos hc] at h
      cases h
      rw [List.drop_nil]
      exact pref_of_bool hc
    · rw [if_neg hc] at h; cases h
  | cons a l ih =>
    unfold findLast at h
    cases hl : findLast p l with
    | some j =>
      rw [hl] at h
      cases h
      exact ih hl
    | none =>
      rw [hl] at h
      by_cases hc : p.isPrefixOf (a :: l)
      · rw [if_pos hc] at h
        cases h
        rw [List.drop_zero]
        exact pref_of_bool hc
      · rw [if_neg hc] at h; cases h

lemma findLast_none {p c : List Char} (h : findLast p c = none) : ∀ j, ¬ p <+: c.drop j := by
  induction c with
  | nil =>
    unfold findLast at h
    by_cases hc : p.isPrefixOf ([] : List Char)
    · rw [if_pos hc] at h; cases h
    · intro j hpref
      rw [List.drop_nil] at hpref
      exact hc (bool_of_pref hpref)
  | cons a l ih =>
    unfold findLast at h
    cases hl : findLast p l with
    | some j => rw [hl] at h; cases h
    | none =>
      rw [hl] at h
      by_cases hc : p.isPrefixOf (a :: l)
      · rw [if_pos hc] at h; cases h
      · intro j hpref
        cases j with
        | zero =>
          rw [List.drop_zero] at hpref
          exact hc (bool_of_pref hpref)
        | succ j'' => exact ih hl j'' hpref

lemma findLast_max {p c : List Char} {i : Nat} (hp : p ≠ []) (h : findLast p c = some i) :
    ∀ j, i < j → ¬ p <+: c.drop j := by
  induction c generalizing i with
  | nil =>
    unfold findLast at h
    by_cases hc : p.isPrefixOf ([] : List Char)
    · exact absurd (pref_nil_eq (pref_of_bool hc)) hp
    · rw [if_neg hc] at h; cases h
  | cons a l ih =>
    unfold findLast at h
    cases hl : findLast p l with
    | some j0 =>
      rw [hl] at h
      cases h
      intro j hj hpref
      cases j with
      | zero => omega
      | succ j'' => exact ih hl j'' (by omega) hpref
    | none =>
      rw [hl] at h
      by_cases hc : p.isPrefixOf (a :: l)
      · rw [if_pos hc] at h
        cases h
        intro j hj hpref
        cases j with
        | zero => omega
        | succ j'' => exact findLast_none hl j'' hpref
      · rw [if_neg hc] at h; cases h

lemma findLast_intro {p c : List Char} {i : Nat} (hocc : p <+: c.drop i)
    (hmax : ∀ j, i < j → ¬ p <+: c.drop j) : findLast p c = some i := by
  induction c generalizing i with
  | nil =>
    rw [List.drop_nil] at hocc
    cases i with
    | zero =>
      unfold findLast
      rw [if_pos (bool_of_pref hocc)]
    | succ i'' =>
      exact absurd (by rw [List.drop_nil]; exact hocc) (hmax (i'' + 2) (by omega))
  | cons a l ih =>
    cases i with
    | zero =>
      rw [List.drop_zero] at hocc
      have hl : findLast p l = none := by
        cases hl : findLast p l with
        | none => rfl
        | some j0 =>
          exact absurd (findLast_mem hl) (hmax (j0 + 1) (by omega))
      unfold findLast
      rw [hl, if_pos (bool_of_pref hocc)]
    | succ i'' =>
      have hl : findLast p l = some i'' :=
        ih hocc (fun j hj hpref => hmax (j + 1) (by omega) hpref)
      unfold findLast
      rw [hl]

lemma S_ne_nil : S ≠ [] := by decide

lemma E_ne_nil : E ≠ [] := by decide

/-- The end marker has no nonempty proper border: no proper nonempty suffix of
    E is also one of its own leading parts; hence occurrences of E cannot
    straddle the end of an inserted block. -/
lemma noBorderE : ∀ m, m < E.length → 0 < m → E.take (E.length - m) ≠ E.drop m := by decide

/-- Everything of the block before its final end marker. -/
def blockPre (hostEntries : List Char) : List Char := S ++ '\n' :: (hostEntries ++ ['\n'])

lemma mergeBlock_decomp (e : List Char) : mergeBlock e = blockPre e ++ E := by
  simp [mergeBlock, blockPre]

lemma blockPre_length (e : List Char) : (blockPre e).length = S.length + e.length + 2 := by
  simp [blockPre]
  omega

lemma S_pref_mergeBlock (e : List Char) : S <+: mergeBlock e :=
  ⟨'\n' :: (e ++ '\n' :: E), rfl⟩

/-- Replacing inside content of the shape pre ++ block ++ suf: when no start
    marker occurs before the block and no end marker occurs in the tail, merge
    replaces exactly the block and preserves pre and suf byte for byte. -/
lemma merge_replace (e old pre suf : List Char)
    (hpre : ∀ i, i < pre.length → ¬ S <+: (pre ++ (mergeBlock old ++ suf)).drop i)
    (hsuf : ∀ m, ¬ E <+: suf.drop m) :
    merge e (pre ++ (mergeBlock old ++ suf)) = pre ++ (mergeBlock e ++ suf) := by
  set c := pre ++ (mergeBlock old ++ suf) with hc
  have hdrop_pre : c.drop pre.length = mergeBlock old ++ suf := by
    rw [hc, List.drop_append_eq_append_drop, List.drop_length, Nat.sub_self, List.drop_zero,
      List.nil_append]
  have hFF : findFirst S c = some pre.length := by
    apply findFirst_intro
    · rw [hdrop_pre]
      exact pref_append_of suf (S_pref_mergeBlock old)
    · exact hpre
  have hq : c = (pre ++ blockPre old) ++ (E ++ suf) := by
    rw [hc, mergeBlock_decomp]
    simp
  have hqlen : (pre ++ blockPre old).length = pre.length + (blockPre old).length := by
    simp
  have hdrop_q : c.drop (pre.length + (blockPre old).length) = E ++ suf := by
    rw [hq, ← hqlen, List.drop_append_eq_append_drop, List.drop_length, Nat.sub_self,
      List.drop_zero, List.nil_append]
  have hFL : findLast E c = some (pre.length + (blockPre old).length) := by
    apply findLast_intro
    · rw [hdrop_q]
      exact ⟨suf, rfl⟩
    · intro j hj hpref
      have hdrop_j : c.drop j = (E ++ suf).drop (j - (pre.length + (blockPre old).length)) := by
        rw [hq, List.drop_append_eq_append_drop, hqlen,
          List.drop_eq_nil_of_le (by omega), List.nil_append]
      set m := j - (pre.length + (blockPre old).length) with hm
      have hmpos : 0 < m := by omega
      rw [hdrop_j] at hpref
      by_cases hmE : E.length ≤ m
      · rw [List.drop_append_eq_append_drop, List.drop_eq_nil_of_le hmE,
          List.nil_append] at hpref
        exact hsuf (m - E.length) hpref
      · rw [List.drop_append_eq_append_drop, Nat.sub_eq_zero_of_le (by omega),
          List.drop_zero] at hpref
        have hlen : (E.drop m).length < E.length := by
          rw [List.length_drop]; omega
        obtain ⟨heq, _⟩ := pref_append_split hlen hpref
        rw [List.length_drop] at heq
        exact noBorderE m (by omega) hmpos heq.symm
  have hspan : matchSpan c = some (pre.length, pre.length + (blockPre old).length) := by
    unfold matchSpan
    rw [hFF, hFL]
    show (if pre.length + S.length ≤ pre.length + (blockPre old).length
        then some (pre.length, pre.length + (blockPre old).length) else none)
        = some (pre.length, pre.length + (blockPre old).length)
    rw [if_pos (by rw [blockPre_length]; omega)]
  unfold merge
  rw [hspan]
  show c.take pre.length ++ mergeBlock e ++
      c.drop (pre.length + (blockPre old).length + E.length) = pre ++ (mergeBlock e ++ suf)
  have htake : c.take pre.length = pre := by
    rw [hc, List.take_append_eq_append_take, List.take_length, Nat.sub_self, List.take_zero,
      List.append_nil]
  have hdrop_end : c.drop (pre.length + (blockPre old).length + E.length) = suf := by
    have : c = ((pre ++ blockPre old) ++ E) ++ suf := by rw [hq]; simp
    rw [this, List.drop_append_eq_append_drop,
      List.drop_eq_nil_of_le (by simp; omega), List.nil_append,
      Nat.sub_eq_zero_of_le (by simp; omega), List.drop_zero]
  rw [htake, hdrop_end]
  simp

lemma merge_match_eq (e c : List Char) {i j : Nat} (hm : matchSpan c = some (i, j)) :
    merge e c = c.take i ++ mergeBlock e ++ c.drop (j + E.length) := by
  unfold merge
  rw [hm]

lemma matchSpan_eq_some {c : List Char} {i j : Nat} (hm : matchSpan c = some (i, j)) :
    findFirst S c = some i ∧ findLast E c = some j ∧ i + S.length ≤ j := by
  unfold matchSpan at hm
  cases hFF : findFirst S c with
  | none => rw [hFF] at hm; cases hm
  | some i0 =>
    cases hFL : findLast E c with
    | none => rw [hFF, hFL] at hm; cases hm
    | some j0 =>
      rw [hFF, hFL] at hm
      have hm2 : (if i0 + S.length ≤ j0 then some ((i0, j0) : Nat × Nat) else none)
          = some (i, j) := hm
      by_cases hle : i0 + S.length ≤ j0
      · rw [if_pos hle] at hm2
        cases hm2
        exact ⟨rfl, rfl, hle⟩
      · rw [if_neg hle] at hm2
        cases hm2

lemma matchSpan_none_of_no_occ {c : List Char} (h : ∀ i, ¬ S <+: c.drop i) :
    matchSpan c = none := by
  have hFF : findFirst S c = none := by
    cases hFF : findFirst S c with
    | none => rfl
    | some i => exact absurd (findFirst_mem hFF) (h i)
  cases hFL : findLast E c with
  | none => unfold matchSpan; rw [hFF, hFL]
  | some j => unfold matchSpan; rw [hFF, hFL]

lemma take_drop_split {c : List Char} {i' i : Nat} (h1 : i' ≤ i) (h2 : i ≤ c.length) :
    c.drop i' = (c.take i).drop i' ++ c.drop i := by
  conv_lhs => rw [← List.take_append_drop i c]
  rw [List.drop_append_eq_append_drop]
  have hlen : (c.take i).length = i := by rw [List.length_take]; omega
  rw [hlen, Nat.sub_eq_zero_of_le h1, List.drop_zero]

/-- Idempotence of merge for content that either contains a matched span or is
    free of the start marker (including as a trailing fragment). -/
lemma merge_idem (e c : List Char)
    (h : (∃ i j, matchSpan c = some (i, j)) ∨
      ((∀ i, ¬ S <+: c.drop i) ∧ ∀ k, 0 < k → k < S.length → ¬ S.take k <:+ c)) :
    merge e (merge e c) = merge e c := by
  rcases h with ⟨i, j, hm⟩ | ⟨hnoS, hnoTail⟩
  · obtain ⟨hFF, hFL, hle⟩ := matchSpan_eq_some hm
    have hilen : i < c.length := by
      by_contra hcon
      have : c.drop i = [] := List.drop_eq_nil_of_le (by omega)
      have := findFirst_mem hFF
      rw [‹c.drop i = []›] at this
      exact S_ne_nil (pref_nil_eq this)
    have hlen_take : (c.take i).length = i := by rw [List.length_take]; omega
    rw [merge_match_eq e c hm, List.append_assoc]
    apply merge_replace
    · intro i' hi' hpref
      rw [hlen_take] at hi'
      obtain ⟨t, ht⟩ := findFirst_mem hFF
      obtain ⟨bt, hbt⟩ := S_pref_mergeBlock e
      have hdrop1 : (c.take i ++ (mergeBlock e ++ c.drop (j + E.length))).drop i'
          = (c.take i).drop i' ++ (S ++ (bt ++ c.drop (j + E.length))) := by
        rw [List.drop_append_eq_append_drop, hlen_take, Nat.sub_eq_zero_of_le (by omega),
          List.drop_zero, ← hbt]
        simp
      rw [hdrop1] at hpref
      have hpref2 : S <+: (c.take i).drop i' ++ (S ++ t) := pref_sandwich hpref
      have hstep : c.drop i' = (c.take i).drop i' ++ (S ++ t) := by
        rw [ht]
        exact take_drop_split (by omega) (by omega)
      rw [← hstep] at hpref2
      exact findFirst_min hFF i' hi' hpref2
    · intro m hpref
      rw [List.drop_drop] at hpref
      have hEpos : 0 < E.length := by decide
      exact findLast_max E_ne_nil hFL (j + E.length + m) (by omega) hpref
  · have hmn : matchSpan c = none := matchSpan_none_of_no_occ hnoS
    have h1 : merge e c = c ++ mergeBlock e := by unfold merge; rw [hmn]
    rw [h1]
    have h3 := merge_replace e e c []
    rw [List.append_nil] at h3
    apply h3
    · intro i hi hpref
      have hdrop : (c ++ mergeBlock e).drop i = c.drop i ++ mergeBlock e := by
        rw [List.drop_append_eq_append_drop, Nat.sub_eq_zero_of_le (by omega), List.drop_zero]
      rw [hdrop] at hpref
      rcases le_or_lt S.length (c.drop i).length with hge | hlt
      · rw [pref_append_left hge] at hpref
        exact hnoS i hpref
      · obtain ⟨heq, _⟩ := pref_append_split hlt hpref
        have hk : 0 < (c.drop i).length := by rw [List.length_drop]; omega
        have hsuffix : S.take (c.drop i).length <:+ c := by
          rw [← heq]
          exact List.drop_suffix i c
        exact hnoTail (c.drop i).length hk hlt hsuffix
    · intro m hpref
      rw [List.drop_nil] at hpref
      exact E_ne_nil (pref_nil_eq hpref)

/- ### Concrete contents used in the merger claims -/

def exampleOldEntries : List Char := "1.2.3.4\told.example\t# old-svc\n".data

def exampleOldEntries2 : List Char := "5.6.7.8\tb.example\t# api\n".data

def exampleNewEntries : List Char := "9.9.9.9\ta.example\t# web\n".data

def keepAbove : List Char := "keep-above\n".data

def keepBelow : List Char := "keep-below\n".data

def userMiddle : List Char := "user-added line\n".data

def twoBlockContent : List Char :=
  keepAbove ++ (mergeBlock exampleOldEntries
    ++ (userMiddle ++ (mergeBlock exampleOldEntries2 ++ keepBelow)))

/- ### Claim theorems for the file merger -/

/-- C2 counterexample: merge is not idempotent on every starting content.  On a
    file whose content is exactly one stray start marker (no end marker), the
    first merge appends the block after the stray marker, and the second merge
    then matches from the stray marker through the appended block's end marker,
    collapsing the content; the two results differ. -/
theorem merge_not_idempotent_on_stray_marker :
    merge exampleNewEntries (merge exampleNewEntries S) ≠ merge exampleNewEntries S := by
  decide

/-- C2 (amended): merge is idempotent provided the starting content either
    already contains a matched managed span, or contains no occurrence of the
    start marker and does not end in a nonempty proper leading fragment of the
    start marker; unrestricted idempotence fails on a stray start marker. -/
theorem merge_idempotent_amended (e c : List Char)
    (h : (∃ i j, matchSpan c = some (i, j)) ∨
      ((∀ i, ¬ S <+: c.drop i) ∧ ∀ k, 0 < k → k < S.length → ¬ S.take k <:+ c)) :
    merge e (merge e c) = merge e c :=
  merge_idem e c h

theorem merge_idempotent_amended_witness :
    merge exampleNewEntries (merge exampleNewEntries (mergeBlock exampleOldEntries))
      = merge exampleNewEntries (mergeBlock exampleOldEntries) :=
  merge_idempotent_amended exampleNewEntries (mergeBlock exampleOldEntries)
    (Or.inl ⟨0, 75, by decide⟩)

/-- C3: when the content contains a matched span, merge replaces exactly that
    span with the new block, preserving every byte before and after it verbatim
    and in order; when it contains none, merge appends the block to the end with
    no extra separator; concretely, keep-above and keep-below lines around a
    block survive unchanged while the block's entries are replaced. -/
theorem merge_frame_preservation (e c : List Char) :
    (∀ i j, matchSpan c = some (i, j) →
      merge e c = c.take i ++ mergeBlock e ++ c.drop (j + E.length))
    ∧ (matchSpan c = none → merge e c = c ++ mergeBlock e)
    ∧ merge exampleNewEntries (keepAbove ++ (mergeBlock exampleOldEntries ++ keepBelow))
      = keepAbove ++ (mergeBlock exampleNewEntries ++ keepBelow) :=
  ⟨fun _ _ hm => merge_match_eq e c hm, fun hn => by unfold merge; rw [hn], by decide⟩

theorem merge_frame_preservation_witness :
    merge exampleNewEntries (keepAbove ++ (mergeBlock exampleOldEntries ++ keepBelow))
      = (keepAbove ++ (mergeBlock exampleOldEntries ++ keepBelow)).take 11
        ++ mergeBlock exampleNewEntries
        ++ (keepAbove ++ (mergeBlock exampleOldEntries ++ keepBelow)).drop (86 + E.length) :=
  (merge_frame_preservation exampleNewEntries
    (keepAbove ++ (mergeBlock exampleOldEntries ++ keepBelow))).1 11 86 (by decide)

/-- C10: the block search is greedy: the replaced span runs from the first
    occurrence of the start marker through the last occurrence of the end
    marker; on content holding two previously written blocks with user text
    between them, merge collapses everything from the first block's start
    marker through the second block's end marker into one new block, and the
    middle text is not preserved. -/
theorem merge_greedy_two_blocks (e c : List Char) (i j : Nat)
    (hm : matchSpan c = some (i, j)) :
    merge e c = c.take i ++ mergeBlock e ++ c.drop (j + E.length)
    ∧ (∀ i', i' < i → ¬ S <+: c.drop i')
    ∧ (∀ j', j < j' → ¬ E <+: c.drop j')
    ∧ merge exampleNewEntries twoBlockContent
      = keepAbove ++ (mergeBlock exampleNewEntries ++ keepBelow) := by
  obtain ⟨hFF, hFL, _⟩ := matchSpan_eq_some hm
  exact ⟨merge_match_eq e c hm, findFirst_min hFF, findLast_max E_ne_nil hFL, by decide⟩

theorem merge_greedy_two_blocks_witness :
    merge exampleNewEntries twoBlockContent
      = twoBlockContent.take 11 ++ mergeBlock exampleNewEntries
        ++ twoBlockContent.drop (213 + E.length) :=
  (merge_greedy_two_blocks exampleNewEntries twoBlockContent 11 213 (by decide)).1

/-- C8: a failed read of the target file returns the error before any write is
    attempted, leaving the file untouched; a failed write after a successful
    read is reported as an error, with exactly one write attempt carrying the
    merged content and no retry or rollback. -/
theorem read_write_error_handling (e c : List Char) (w : Bool) :
    (tryWriteToHostFile e none w).1 = false
    ∧ (tryWriteToHostFile e none w).2.countP (fun op => isWriteOp op) = 0
    ∧ (tryWriteToHostFile e (some c) true).1 = false
    ∧ (tryWriteToHostFile e (some c) true).2
      = [FileOp.readOp, FileOp.writeOp (merge e c)]
    ∧ (tryWriteToHostFile e (some c) true).2.countP (fun op => isWriteOp op) = 1 :=
  ⟨rfl, rfl, rfl, rfl, rfl⟩

/- ### Claim theorems for the address resolver and the sorter -/

lemma resolve_append (xs ys : List LoadBalancerIngress) (fb : String) :
    resolve (xs ++ ys) fb = resolve ys (resolve xs fb) := by
  induction xs generalizing fb with
  | nil => rfl
  | cons x xs ih => simp only [List.cons_append, resolve]; exact ih _

lemma resolve_all_empty (post : List LoadBalancerIngress) (a : String)
    (hpost : ∀ e ∈ post, e.ip = "" ∧ e.hostname = "") : resolve post a = a := by
  induction post generalizing a with
  | nil => rfl
  | cons x xs ih =>
    have hx := hpost x (by simp)
    simp only [resolve, hx.1, hx.2, ne_eq, not_true_eq_false, if_false]
    exact ih a (fun e he => hpost e (by simp [he]))

lemma resolve_eq_foldl (es : List LoadBalancerIngress) (fb : String) :
    resolve es fb = es.foldl
      (fun addr e => if e.ip ≠ "" then e.ip else if e.hostname ≠ "" then e.hostname else addr)
      fb := by
  induction es generalizing fb with
  | nil => rfl
  | cons x xs ih => simp only [resolve, List.foldl_cons]; exact ih _

/-- C1: resolution starts from the fallback and folds over the status entries
    in order, overwriting the running result with each entry's IP when that is
    non-empty, else with its hostname when that is non-empty; hence the last
    entry with a non-empty field wins, the empty sequence yields the fallback
    unchanged, and the concrete three-entry sequence of the claim resolves to
    h.example for every fallback. -/
theorem resolve_policy (pre post : List LoadBalancerIngress) (lb : LoadBalancerIngress)
    (fb : String) (hlb : lb.ip ≠ "" ∨ lb.hostname ≠ "")
    (hpost : ∀ e ∈ post, e.ip = "" ∧ e.hostname = "") :
    resolve (pre ++ lb :: post) fb = (if lb.ip ≠ "" then lb.ip else lb.hostname)
    ∧ (∀ es fb', resolve es fb'
        = es.foldl (fun addr e =>
            if e.ip ≠ "" then e.ip else if e.hostname ≠ "" then e.hostname else addr) fb')
    ∧ resolve [] fb = fb
    ∧ resolve [⟨"", ""⟩, ⟨"1.1.1.1", ""⟩, ⟨"", "h.example"⟩] fb = "h.example" := by
  refine ⟨?_, fun es fb' => resolve_eq_foldl es fb', rfl, by simp [resolve]⟩
  rw [resolve_append]
  show resolve post (if lb.ip ≠ "" then lb.ip else if lb.hostname ≠ "" then lb.hostname
    else resolve pre fb) = _
  have hstep : (if lb.ip ≠ "" then lb.ip else if lb.hostname ≠ "" then lb.hostname
      else resolve pre fb) = (if lb.ip ≠ "" then lb.ip else lb.hostname) := by
    by_cases h1 : lb.ip ≠ ""
    · rw [if_pos h1, if_pos h1]
    · rcases hlb with h | h
      · exact absurd h h1
      · rw [if_neg h1, if_neg h1, if_pos h]
  rw [hstep]
  exact resolve_all_empty post _ hpost

theorem resolve_policy_witness :
    resolve ([⟨"2.2.2.2", ""⟩] ++ ⟨"", "h.example"⟩ :: [⟨"", ""⟩]) "F"
      = (if ("" : String) ≠ "" then "" else "h.example") :=
  (resolve_policy [⟨"2.2.2.2", ""⟩] [⟨"", ""⟩] ⟨"", "h.example"⟩ "F"
    (Or.inr (by decide)) (by decide)).1

/-- C5: the full record set is sorted by the case-insensitively compared Domain
    and nothing else: sorting permutes the aggregated records, every adjacent
    pair of the result satisfies lowercase(domain_i) ≤ lowercase(domain_i+1),
    and the comparison underlying the sort is exactly the strict order on the
    lowercased Domains with no secondary key. -/
theorem sorted_by_lower_domain (l : List Rule) :
    List.Chain' (fun a b => toLowerStr a.Domain ≤ toLowerStr b.Domain) (sortHosts l)
    ∧ (∀ a b, hostsLess a b ↔ toLowerStr a.Domain < toLowerStr b.Domain)
    ∧ (sortHosts l).Perm l := by
  refine ⟨?_, fun a b => Iff.rfl, List.perm_insertionSort hostsLe l⟩
  have hs := List.sorted_insertionSort hostsLe l
  exact List.Pairwise.chain' (hs.imp (fun {a b} h => not_lt.mp h))

/- ### Claim theorems for gatewayAddress -/

lemma gatewayAddress_eq (fetch : Fetch) (ns nm : String) :
    gatewayAddress fetch ns nm =
      ((statusAddrs fetch ns nm).map (fun addrs => (firstAddrValue addrs).getD "")).getD "" := by
  unfold gatewayAddress statusAddrs
  cases hf : fetch ns nm with
  | none => rfl
  | some gw =>
    cases hs : (jLookup "status" gw).bind asObj with
    | none => simp [hs]
    | some status =>
      simp only [hs, Option.some_bind]
      cases ha : (jLookup "addresses" status).bind asArr with
      | none => simp [ha]
      | some addrs =>
        simp only [ha, Option.some_bind]
        cases hv : firstAddrValue addrs with
        | none => simp [hv]
        | some v => simp [hv]

/-- A concrete fetched gateway whose status address list is well-shaped and
    whose first (and only) address carries the empty string as its value. -/
def fetchEmptyValue : Fetch := fun _ _ =>
  some [("status", JVal.obj [("addresses", JVal.arr [JVal.obj [("value", JVal.str "")]])])]

/-- C7 counterexample: the claim's "returns the empty string exactly when the
    fetch fails, the status or address list is absent or malformed, or no list
    element carries a string value" is refuted by a well-shaped gateway whose
    first address value is the empty string: gatewayAddress returns the empty
    string although none of the listed conditions holds. -/
theorem gatewayAddress_empty_iff_refuted :
    ¬ (∀ (fetch : Fetch) (ns nm : String),
        gatewayAddress fetch ns nm = "" ↔
          statusAddrs fetch ns nm = none
          ∨ ∃ addrs, statusAddrs fetch ns nm = some addrs ∧ firstAddrValue addrs = none) := by
  intro hclaim
  have h := (hclaim fetchEmptyValue "ns1" "gw").mp rfl
  rcases h with h | ⟨addrs, haddrs, hfirst⟩
  · rw [show statusAddrs fetchEmptyValue "ns1" "gw"
      = some [JVal.obj [("value", JVal.str "")]] from rfl] at h
    cases h
  · rw [show statusAddrs fetchEmptyValue "ns1" "gw"
      = some [JVal.obj [("value", JVal.str "")]] from rfl] at haddrs
    cases haddrs
    rw [show firstAddrValue [JVal.obj [("value", JVal.str "")]] = some "" from rfl] at hfirst
    cases hfirst

/-- C7 (amended): gatewayAddress returns the first string value present in the
    fetched resource's status address list when the resource, its status, and
    its address list are well-shaped, and returns the empty string exactly when
    the fetch fails or the status/address-list shape checks fail, or no list
    element carries a string value, or the first carried string value is itself
    the empty string. -/
theorem gatewayAddress_first_value (fetch : Fetch) (ns nm : String) :
    (∀ addrs, statusAddrs fetch ns nm = some addrs →
      gatewayAddress fetch ns nm = (firstAddrValue addrs).getD "")
    ∧ (statusAddrs fetch ns nm = none → gatewayAddress fetch ns nm = "")
    ∧ (gatewayAddress fetch ns nm = "" ↔
        statusAddrs fetch ns nm = none
        ∨ ∃ addrs, statusAddrs fetch ns nm = some addrs
            ∧ (firstAddrValue addrs = none ∨ firstAddrValue addrs = some "")) := by
  refine ⟨?_, ?_, ?_⟩
  · intro addrs haddrs
    rw [gatewayAddress_eq, haddrs]
    rfl
  · intro hnone
    rw [gatewayAddress_eq, hnone]
    rfl
  · rw [gatewayAddress_eq]
    cases haddrs : statusAddrs fetch ns nm with
    | none => simp
    | some addrs =>
      cases hv : firstAddrValue addrs with
      | none => simp [hv]
      | some v =>
        simp only [Option.map_some', Option.getD_some, hv]
        constructor
        · intro hveq
          subst hveq
          exact Or.inr ⟨addrs, rfl, Or.inr hv⟩
        · rintro (hc | ⟨addrs2, haddrs2, hfirst2 | hfirst2⟩)
          · cases hc
          · cases haddrs2
            rw [hv] at hfirst2
            cases hfirst2
          · cases haddrs2
            rw [hv] at hfirst2
            cases hfirst2
            rfl

theorem gatewayAddress_first_value_witness :
    gatewayAddress fetchEmptyValue "ns1" "gw"
      = (firstAddrValue [JVal.obj [("value", JVal.str "")]]).getD "" :=
  (gatewayAddress_first_value fetchEmptyValue "ns1" "gw").1
    [JVal.obj [("value", JVal.str "")]] rfl

/- ### Cache invariant for the gateway-address cache -/

/-- The lookup log has no duplicate keys and every logged key is cached. -/
def CacheInv (cache : List (String × String)) (calls : List String) : Prop :=
  calls.Nodup ∧ ∀ k ∈ calls, (cache.lookup k).isSome = true

lemma lookup_isSome_cons {cache : List (String × String)} {k key addr : String}
    (h : (cache.lookup k).isSome = true) :
    (((key, addr) :: cache).lookup k).isSome = true := by
  by_cases hk : k == key
  · simp [List.lookup, hk]
  · simp only [List.lookup, hk]
    exact h

lemma processRef_skip (fetch : Fetch) (rns : String) (cache : List (String × String))
    (calls : List String) (address : String) {ref : JVal} (hAs : asObj ref = none) :
    processRef fetch rns cache calls address ref = (cache, calls, address) := by
  unfold processRef
  rw [hAs]

lemma processRef_hit (fetch : Fetch) (rns : String) (cache : List (String × String))
    (calls : List String) (address : String) {ref : JVal} {refMap : List (String × JVal)}
    {cached : String} (hAs : asObj ref = some refMap)
    (hl : cache.lookup (refKey rns refMap) = some cached) :
    processRef fetch rns cache calls address ref
      = (cache, calls, if cached ≠ "" then cached else address) := by
  unfold processRef
  simp only [hAs]
  rw [hl]

lemma processRef_miss (fetch : Fetch) (rns : String) (cache : List (String × String))
    (calls : List String) (address : String) {ref : JVal} {refMap : List (String × JVal)}
    (hAs : asObj ref = some refMap)
    (hl : cache.lookup (refKey rns refMap) = none) :
    processRef fetch rns cache calls address ref
      = ((refKey rns refMap,
            gatewayAddress fetch (refNamespace rns refMap) (refName refMap)) :: cache,
          refKey rns refMap :: calls,
          if gatewayAddress fetch (refNamespace rns refMap) (refName refMap) ≠ ""
          then gatewayAddress fetch (refNamespace rns refMap) (refName refMap)
          else address) := by
  unfold processRef
  simp only [hAs]
  rw [hl]

lemma processRefs_cons (fetch : Fetch) (rns : String) (ref : JVal) (rest : List JVal)
    (cache : List (String × String)) (calls : List String) (address : String) :
    processRefs fetch rns (ref :: rest) cache calls address
      = processRefs fetch rns rest (processRef fetch rns cache calls address ref).1
          (processRef fetch rns cache calls address ref).2.1
          (processRef fetch rns cache calls address ref).2.2 := rfl

lemma processRoute_eq_none (fetch : Fetch) (hn : String) (cache : List (String × String))
    (calls : List String) {route : RouteObj}
    (hspec : (jLookup "spec" route.obj).bind asObj = none) :
    processRoute fetch hn cache calls route = (cache, calls, []) := by
  unfold processRoute
  rw [hspec]

lemma processRoute_eq_some (fetch : Fetch) (hn : String) (cache : List (String × String))
    (calls : List String) {route : RouteObj} {spec : List (String × JVal)}
    (hspec : (jLookup "spec" route.obj).bind asObj = some spec) :
    processRoute fetch hn cache calls route
      = ((processRefs fetch route.ns (((jLookup "parentRefs" spec).bind asArr).getD [])
            cache calls hn).1,
          (processRefs fetch route.ns (((jLookup "parentRefs" spec).bind asArr).getD [])
            cache calls hn).2.1,
          routeRules (((jLookup "hostnames" spec).bind asArr).getD [])
            (processRefs fetch route.ns (((jLookup "parentRefs" spec).bind asArr).getD [])
              cache calls hn).2.2
            (route.ns ++ "/" ++ route.name)) := by
  unfold processRoute
  rw [hspec]

lemma processRoutes_cons (fetch : Fetch) (hn : String) (route : RouteObj)
    (rest : List RouteObj) (cache : List (String × String)) (calls : List String) :
    processRoutes fetch hn (route :: rest) cache calls
      = ((processRoutes fetch hn rest (processRoute fetch hn cache calls route).1
            (processRoute fetch hn cache calls route).2.1).1,
          (processRoutes fetch hn rest (processRoute fetch hn cache calls route).1
            (processRoute fetch hn cache calls route).2.1).2.1,
          (processRoute fetch hn cache calls route).2.2
            ++ (processRoutes fetch hn rest (processRoute fetch hn cache calls route).1
                  (processRoute fetch hn cache calls route).2.1).2.2) := rfl

lemma processRef_inv (fetch : Fetch) (rns : String) (cache : List (String × String))
    (calls : List String) (address : String) (ref : JVal) (h : CacheInv cache calls) :
    CacheInv (processRef fetch rns cache calls address ref).1
      (processRef fetch rns cache calls address ref).2.1 := by
  cases hAs : asObj ref with
  | none => rw [processRef_skip fetch rns cache calls address hAs]; exact h
  | some refMap =>
    cases hl : cache.lookup (refKey rns refMap) with
    | some cached => rw [processRef_hit fetch rns cache calls address hAs hl]; exact h
    | none =>
      rw [processRef_miss fetch rns cache calls address hAs hl]
      refine ⟨?_, ?_⟩
      · show (refKey rns refMap :: calls).Nodup
        refine List.Nodup.cons ?_ h.1
        intro hmem
        have hs := h.2 _ hmem
        rw [hl] at hs
        cases hs
      · intro k hk
        rcases List.mem_cons.mp hk with rfl | hk2
        · simp [List.lookup]
        · exact lookup_isSome_cons (h.2 k hk2)

lemma processRefs_inv (fetch : Fetch) (rns : String) (refs : List JVal)
    (cache : List (String × String)) (calls : List String) (address : String)
    (h : CacheInv cache calls) :
    CacheInv (processRefs fetch rns refs cache calls address).1
      (processRefs fetch rns refs cache calls address).2.1 := by
  induction refs generalizing cache calls address with
  | nil => exact h
  | cons ref rest ih =>
    rw [processRefs_cons]
    exact ih _ _ _ (processRef_inv fetch rns cache calls address ref h)

lemma processRoute_inv (fetch : Fetch) (hn : String) (cache : List (String × String))
    (calls : List String) (route : RouteObj) (h : CacheInv cache calls) :
    CacheInv (processRoute fetch hn cache calls route).1
      (processRoute fetch hn cache calls route).2.1 := by
  cases hspec : (jLookup "spec" route.obj).bind asObj with
  | none => rw [processRoute_eq_none fetch hn cache calls hspec]; exact h
  | some spec =>
    rw [processRoute_eq_some fetch hn cache calls hspec]
    exact processRefs_inv fetch route.ns _ cache calls hn h

lemma processRoutes_inv (fetch : Fetch) (hn : String) (routes : List RouteObj)
    (cache : List (String × String)) (calls : List String) (h : CacheInv cache calls) :
    CacheInv (processRoutes fetch hn routes cache calls).1
      (processRoutes fetch hn routes cache calls).2.1 := by
  induction routes generalizing cache calls with
  | nil => exact h
  | cons route rest ih =>
    rw [processRoutes_cons]
    exact ih _ _ (processRoute_inv fetch hn cache calls route h)

/- ### Claim theorem for the gateway-address cache -/

/-- A parentRef object naming a parent gateway. -/
def parentRefObj (ns nm : String) : JVal :=
  JVal.obj [("name", JVal.str nm), ("namespace", JVal.str ns)]

/-- The spec map of an HTTPRoute with one hostname and one parent ref. -/
def specObjFor (h ns nm : String) : List (String × JVal) :=
  [("hostnames", JVal.arr [JVal.str h]), ("parentRefs", JVal.arr [parentRefObj ns nm])]

/-- An HTTPRoute object with one declared hostname and one parent gateway. -/
def routeWithParent (rname rns h ns nm : String) : RouteObj :=
  ⟨rname, rns, [("spec", JVal.obj (specObjFor h ns nm))]⟩

/-- C4: over any run started with an empty cache, the gatewayAddress lookup is
    performed at most once per namespace/name cache key (the call log is
    duplicate-free); a cached hit performs no further lookup, and a cached
    empty result is honored as no address, leaving the route's running address
    unchanged; two routes referencing the same parent gateway perform a single
    lookup and both observe the same resolved address. -/
theorem gateway_cache_once (fetch : Fetch) (hn rns ns nm h1 h2 address cached : String)
    (cache : List (String × String)) (calls : List String)
    (refMap : List (String × JVal)) (routes : List RouteObj) :
    (processRoutes fetch hn routes [] []).2.1.Nodup
    ∧ (cache.lookup (refKey rns refMap) = some cached →
        processRef fetch rns cache calls address (JVal.obj refMap)
          = (cache, calls, if cached ≠ "" then cached else address))
    ∧ (cache.lookup (refKey rns refMap) = some "" →
        processRef fetch rns cache calls address (JVal.obj refMap)
          = (cache, calls, address))
    ∧ processRoutes fetch hn
        [routeWithParent "r1" rns h1 ns nm, routeWithParent "r2" rns h2 ns nm] [] []
      = ([((if ns = "" then rns else ns) ++ "/" ++ nm,
            gatewayAddress fetch (if ns = "" then rns else ns) nm)],
          [(if ns = "" then rns else ns) ++ "/" ++ nm],
          [⟨h1, if gatewayAddress fetch (if ns = "" then rns else ns) nm ≠ ""
              then gatewayAddress fetch (if ns = "" then rns else ns) nm else hn,
            rns ++ "/" ++ "r1"⟩,
           ⟨h2, if gatewayAddress fetch (if ns = "" then rns else ns) nm ≠ ""
              then gatewayAddress fetch (if ns = "" then rns else ns) nm else hn,
            rns ++ "/" ++ "r2"⟩]) := by
  refine ⟨?_, ?_, ?_, ?_⟩
  · exact (processRoutes_inv fetch hn routes [] []
      ⟨List.nodup_nil, fun k hk => absurd hk (List.not_mem_nil k)⟩).1
  · intro hl
    exact @processRef_hit fetch rns cache calls address (JVal.obj refMap) refMap cached rfl hl
  · intro hl
    rw [@processRef_hit fetch rns cache calls address (JVal.obj refMap) refMap "" rfl hl]
    simp
  · set N := if ns = "" then rns else ns with hN
    set K := N ++ "/" ++ nm with hK
    set g := gatewayAddress fetch N nm with hg
    have hl2 : List.lookup K [(K, g)] = some g := by simp [List.lookup]
    have hr2 : processRef fetch rns [(K, g)] [K] hn (parentRefObj ns nm)
        = ([(K, g)], [K], if g ≠ "" then g else hn) :=
      @processRef_hit fetch rns [(K, g)] [K] hn (parentRefObj ns nm)
        [("name", JVal.str nm), ("namespace", JVal.str ns)] g rfl hl2
    have hrefs : processRefs fetch rns [parentRefObj ns nm] [(K, g)] [K] hn
        = ([(K, g)], [K], if g ≠ "" then g else hn) := by
      rw [processRefs_cons, hr2]
      rfl
    have hroute2 : processRoute fetch hn [(K, g)] [K] (routeWithParent "r2" rns h2 ns nm)
        = ([(K, g)], [K], [⟨h2, if g ≠ "" then g else hn, rns ++ "/" ++ "r2"⟩]) := by
      show ((processRefs fetch rns [parentRefObj ns nm] [(K, g)] [K] hn).1,
          (processRefs fetch rns [parentRefObj ns nm] [(K, g)] [K] hn).2.1,
          routeRules [JVal.str h2]
            (processRefs fetch rns [parentRefObj ns nm] [(K, g)] [K] hn).2.2
            (rns ++ "/" ++ "r2"))
        = ([(K, g)], [K], [⟨h2, if g ≠ "" then g else hn, rns ++ "/" ++ "r2"⟩])
      rw [hrefs]
      rfl
    have hinner : processRoutes fetch hn [routeWithParent "r2" rns h2 ns nm] [(K, g)] [K]
        = ([(K, g)], [K], [⟨h2, if g ≠ "" then g else hn, rns ++ "/" ++ "r2"⟩]) := by
      show ((processRoute fetch hn [(K, g)] [K] (routeWithParent "r2" rns h2 ns nm)).1,
          (processRoute fetch hn [(K, g)] [K] (routeWithParent "r2" rns h2 ns nm)).2.1,
          (processRoute fetch hn [(K, g)] [K] (routeWithParent "r2" rns h2 ns nm)).2.2
            ++ ([] : List Rule))
        = ([(K, g)], [K], [⟨h2, if g ≠ "" then g else hn, rns ++ "/" ++ "r2"⟩])
      rw [hroute2]
      simp
    show ((processRoutes fetch hn [routeWithParent "r2" rns h2 ns nm] [(K, g)] [K]).1,
        (processRoutes fetch hn [routeWithParent "r2" rns h2 ns nm] [(K, g)] [K]).2.1,
        [(⟨h1, if g ≠ "" then g else hn, rns ++ "/" ++ "r1"⟩ : Rule)]
          ++ (processRoutes fetch hn [routeWithParent "r2" rns h2 ns nm] [(K, g)] [K]).2.2)
      = ([(K, g)], [K],
          [⟨h1, if g ≠ "" then g else hn, rns ++ "/" ++ "r1"⟩,
           ⟨h2, if g ≠ "" then g else hn, rns ++ "/" ++ "r2"⟩])
    rw [hinner]
    rfl

/- ### Non-empty address invariant -/

lemma resolve_ne_empty (lbs : List LoadBalancerIngress) (fb : String) (h : fb ≠ "") :
    resolve lbs fb ≠ "" := by
  induction lbs generalizing fb with
  | nil => exact h
  | cons x xs ih =>
    show resolve xs (if x.ip ≠ "" then x.ip
      else if x.hostname ≠ "" then x.hostname else fb) ≠ ""
    apply ih
    by_cases h1 : x.ip = ""
    · by_cases h2 : x.hostname = ""
      · simpa [h1, h2] using h
      · simp [h1, h2]
    · simp [h1]

lemma processRef_addr_ne (fetch : Fetch) (rns : String) (cache : List (String × String))
    (calls : List String) (address : String) (ref : JVal) (h : address ≠ "") :
    (processRef fetch rns cache calls address ref).2.2 ≠ "" := by
  cases hAs : asObj ref with
  | none => rw [processRef_skip fetch rns cache calls address hAs]; exact h
  | some refMap =>
    cases hl : cache.lookup (refKey rns refMap) with
    | some cached =>
      rw [processRef_hit fetch rns cache calls address hAs hl]
      show (if cached ≠ "" then cached else address) ≠ ""
      by_cases hc : cached = ""
      · simpa [hc] using h
      · simp [hc]
    | none =>
      rw [processRef_miss fetch rns cache calls address hAs hl]
      show (if gatewayAddress fetch (refNamespace rns refMap) (refName refMap) ≠ ""
        then gatewayAddress fetch (refNamespace rns refMap) (refName refMap)
        else address) ≠ ""
      by_cases hg : gatewayAddress fetch (refNamespace rns refMap) (refName refMap) = ""
      · simpa [hg] using h
      · simp [hg]

lemma processRefs_addr_ne (fetch : Fetch) (rns : String) (refs : List JVal)
    (cache : List (String × String)) (calls : List String) (address : String)
    (h : address ≠ "") :
    (processRefs fetch rns refs cache calls address).2.2 ≠ "" := by
  induction refs generalizing cache calls address with
  | nil => exact h
  | cons ref rest ih =>
    rw [processRefs_cons]
    exact ih _ _ _ (processRef_addr_ne fetch rns cache calls address ref h)

lemma routeRules_addr {hostnames : List JVal} {address service : String} {r : Rule}
    (h : r ∈ routeRules hostnames address service) : r.Address = address := by
  unfold routeRules at h
  rw [List.mem_filterMap] at h
  obtain ⟨jv, _, hmap⟩ := h
  rw [Option.map_eq_some'] at hmap
  obtain ⟨s, _, heq⟩ := hmap
  rw [← heq]

lemma processRoute_addr_ne (fetch : Fetch) (hn : String) (cache : List (String × String))
    (calls : List String) (route : RouteObj) (r : Rule) (hhn : hn ≠ "")
    (hr : r ∈ (processRoute fetch hn cache calls route).2.2) : r.Address ≠ "" := by
  cases hspec : (jLookup "spec" route.obj).bind asObj with
  | none =>
    rw [processRoute_eq_none fetch hn cache calls hspec] at hr
    cases hr
  | some spec =>
    rw [processRoute_eq_some fetch hn cache calls hspec] at hr
    rw [routeRules_addr hr]
    exact processRefs_addr_ne fetch route.ns _ cache calls hn hhn

lemma processRoutes_addr_ne (fetch : Fetch) (hn : String) (routes : List RouteObj)
    (cache : List (String × String)) (calls : List String) (r : Rule) (hhn : hn ≠ "")
    (hr : r ∈ (processRoutes fetch hn routes cache calls).2.2) : r.Address ≠ "" := by
  induction routes generalizing cache calls with
  | nil => cases hr
  | cons route rest ih =>
    rw [processRoutes_cons] at hr
    rcases List.mem_append.mp hr with hr1 | hr2
    · exact processRoute_addr_ne fetch hn cache calls route r hhn hr1
    · exact ih _ _ hr2

lemma ingressEntries_addr_ne (hn : String) (items : List IngressItem) (r : Rule)
    (hhn : hn ≠ "") (hr : r ∈ ingressEntries hn items) : r.Address ≠ "" := by
  unfold ingressEntries at hr
  rw [List.mem_flatMap] at hr
  obtain ⟨item, _, hmem⟩ := hr
  rw [List.mem_map] at hmem
  obtain ⟨host, _, heq⟩ := hmem
  rw [← heq]
  exact resolve_ne_empty item.lbIngress hn hhn

/-- C6: when the cluster fallback hostname is non-empty, every emitted Route
    Record carries a non-empty Address: an Ingress record's address is the
    resolution of its load-balancer status over the fallback, an HTTPRoute
    record's address is the gateway resolution started from the fallback, and
    no resolution step ever overwrites the running address with the empty
    string. -/
theorem address_never_empty (hn : String) (items : List IngressItem) (fetch : Fetch)
    (routes : List RouteObj) (r : Rule) (hhn : hn ≠ "")
    (hr : r ∈ ingressEntries hn items ++ (processRoutes fetch hn routes [] []).2.2) :
    r.Address ≠ "" := by
  rcases List.mem_append.mp hr with h1 | h2
  · exact ingressEntries_addr_ne hn items r hhn h1
  · exact processRoutes_addr_ne fetch hn routes [] [] r hhn h2

theorem address_never_empty_witness :
    (⟨"a.example", "k8s.example", "web"⟩ : Rule).Address ≠ "" :=
  address_never_empty "k8s.example" [⟨"web", [], ["a.example"]⟩] (fun _ _ => none) []
    ⟨"a.example", "k8s.example", "web"⟩ (by decide) (by decide)

/- ### Claim theorem for malformed secondary-route fields -/

/-- C9: malformed fields of a secondary route are skipped silently and
    non-fatally, each on its own: a route whose spec is missing or untyped
    contributes nothing while the remaining routes are processed unchanged; a
    parent ref that is not a map is skipped with cache, log and address
    untouched; a hostname element that is not a string is skipped while string
    hostnames still produce their records; a route whose hostnames field is
    missing or not a list emits no records while its parentRefs are still
    processed exactly as usual; and a route with a malformed parentRefs list
    still emits one record per string hostname at the fallback address. -/
theorem malformed_fields_skipped (fetch : Fetch) (hn rns address service : String)
    (cache : List (String × String)) (calls : List String)
    (route : RouteObj) (rest : List RouteObj) (refs : List JVal) (ref h : JVal)
    (hs : List JVal) (spec : List (String × JVal)) :
    ((jLookup "spec" route.obj).bind asObj = none →
      processRoute fetch hn cache calls route = (cache, calls, [])
      ∧ processRoutes fetch hn (route :: rest) cache calls
        = processRoutes fetch hn rest cache calls)
    ∧ (asObj ref = none →
      processRefs fetch rns (ref :: refs) cache calls address
        = processRefs fetch rns refs cache calls address)
    ∧ (asStr h = none →
      routeRules (h :: hs) address service = routeRules hs address service)
    ∧ (∀ s, asStr h = some s →
      routeRules (h :: hs) address service
        = ⟨s, address, service⟩ :: routeRules hs address service)
    ∧ ((jLookup "spec" route.obj).bind asObj = some spec →
      (jLookup "hostnames" spec).bind asArr = none →
      processRoute fetch hn cache calls route
        = ((processRefs fetch route.ns (((jLookup "parentRefs" spec).bind asArr).getD [])
              cache calls hn).1,
            (processRefs fetch route.ns (((jLookup "parentRefs" spec).bind asArr).getD [])
              cache calls hn).2.1,
            []))
    ∧ ((jLookup "spec" route.obj).bind asObj = some spec →
      (jLookup "parentRefs" spec).bind asArr = none →
      processRoute fetch hn cache calls route
        = (cache, calls,
            routeRules (((jLookup "hostnames" spec).bind asArr).getD []) hn
              (route.ns ++ "/" ++ route.name))) := by
  refine ⟨?_, ?_, ?_, ?_, ?_, ?_⟩
  · intro hspec
    refine ⟨processRoute_eq_none fetch hn cache calls hspec, ?_⟩
    rw [processRoutes_cons, processRoute_eq_none fetch hn cache calls hspec]
    rfl
  · intro hAs
    rw [processRefs_cons, processRef_skip fetch rns cache calls address hAs]
  · intro hstr
    unfold routeRules
    rw [List.filterMap_cons, hstr]
    rfl
  · intro s hstr
    unfold routeRules
    rw [List.filterMap_cons, hstr]
    rfl
  · intro hspec hhost
    rw [processRoute_eq_some fetch hn cache calls hspec, hhost]
    rfl
  · intro hspec hrefs
    rw [processRoute_eq_some fetch hn cache calls hspec, hrefs]
    rfl

theorem malformed_fields_skipped_witness :
    processRoute (fun _ _ => none) "k8s" [] [] ⟨"r", "ns", [("spec", JVal.str "bad")]⟩
      = ([], [], []) :=
  ((malformed_fields_skipped (fun _ _ => none) "k8s" "ns" "a" "svc" [] []
      ⟨"r", "ns", [("spec", JVal.str "bad")]⟩ [] [] JVal.other JVal.other [] []).1 rfl).1

theorem gateway_cache_once_witness :
    processRef (fun _ _ => none) "rns" [("ns1/gw", "10.0.0.5")] [] "fallback"
      (JVal.obj [("name", JVal.str "gw"), ("namespace", JVal.str "ns1")])
      = ([("ns1/gw", "10.0.0.5")], [],
          if "10.0.0.5" ≠ "" then "10.0.0.5" else "fallback") :=
  (gateway_cache_once (fun _ _ => none) "hn" "rns" "ns1" "gw" "h1" "h2" "fallback"
    "10.0.0.5" [("ns1/gw", "10.0.0.5")] []
    [("name", JVal.str "gw"), ("namespace", JVal.str "ns1")] []).2.1 (by decide)
